import Mathlib

/-!
Shallow embedding of `holoviews/operation/downsampling.py`: the LTTB bucket
selector `_lttb`, its helper `_argmax_area`, the stride selector `_nth_point`,
and the orchestration `downsample1d._process`.  Machine floats of the source
are modelled as exact rationals; Python/numpy runtime failures are modelled in
an `Except` monad.
-/

namespace Downsampling

/-- Python/numpy runtime errors raised by code paths of `downsampling.py`:
`ValueError` (argmax of an empty sequence), `KeyError` (missing dict key at
`_ALGORITHMS[...]`), `NameError` (unbound name), `IndexError` (sequence index
out of range). -/
inductive PyError where
  | valueError
  | keyError
  | nameError
  | indexError
deriving DecidableEq, Repr

deriving instance DecidableEq for Except

/-- Python sequence indexing `l[i]` with negative-index wrap-around;
an out-of-range index raises `IndexError`. -/
def npGet {α : Type} (l : List α) (i : ℤ) : Except PyError α :=
  let j := if i < 0 then i + l.length else i
  if h : 0 ≤ j ∧ j.toNat < l.length then .ok (l.get ⟨j.toNat, h.2⟩)
  else .error .indexError

/-- numpy basic slicing `l[lo:hi]` for the nonnegative bounds produced by the
offset table: bounds clamp to the array, and `lo ≥ hi` yields an empty
slice. -/
def npSlice {α : Type} (l : List α) (lo hi : ℤ) : List α :=
  (l.take hi.toNat).drop lo.toNat

/-- `np.mean` / `.mean()`: the arithmetic mean.  (numpy returns NaN for an
empty slice; ℚ has no NaN and no statement below depends on that case.) -/
def npMean (l : List ℚ) : ℚ := l.sum / (l.length : ℚ)

/-- Index and value of the first-occurrence maximum of a list, with
`np.argmax` tie-breaking: the first element that no element strictly
exceeds. -/
def argmaxPair : List ℚ → Option (ℕ × ℚ)
  | [] => none
  | v :: rest =>
    match argmaxPair rest with
    | none => some (0, v)
    | some (j, m) => if m ≤ v then some (0, v) else some (j + 1, m)

/-- `np.argmax`, which raises on an empty array (signalled here by `none`). -/
def npArgmax (l : List ℚ) : Option ℕ := (argmaxPair l).map Prod.fst

/-- The absolute shoelace expression of `_argmax_area`, as a function of one
candidate point `(xc, yc)`:
`|xc·(prev_y − avg_next_y) + yc·(avg_next_x − prev_x) + (prev_x·avg_next_y − avg_next_x·prev_y)|`. -/
def triArea (prev_x prev_y avg_next_x avg_next_y xc yc : ℚ) : ℚ :=
  |xc * (prev_y - avg_next_y) + yc * (avg_next_x - prev_x)
      + (prev_x * avg_next_y - avg_next_x * prev_y)|

/-- `_argmax_area(prev_x, prev_y, avg_next_x, avg_next_y, x_bucket, y_bucket)`:
argmax of the elementwise absolute shoelace areas.  `np.argmax` over an empty
bucket raises `ValueError` ("attempt to get argmax of an empty sequence"). -/
def argmax_area (prev_x prev_y avg_next_x avg_next_y : ℚ)
    (x_bucket y_bucket : List ℚ) : Except PyError ℕ :=
  match npArgmax
      (List.zipWith (triArea prev_x prev_y avg_next_x avg_next_y) x_bucket y_bucket) with
  | none => .error .valueError
  | some i => .ok i

/-- `block_size = (y.shape[0] - 2) / (n_out - 2)`, a true (real) division of
Python ints producing a float, modelled exactly in ℚ. -/
def blockSize (n n_out : ℕ) : ℚ := ((n : ℚ) - 2) / ((n_out : ℚ) - 2)

/-- `np.arange(start, stop, step)` over exact rationals:
`⌈(stop − start)/step⌉` elements `start + i·step`.  For `step < 0` with
`stop > start` the count is nonpositive and the result empty, as in numpy;
`step = 0` (numpy raises) is never reached by the theorems below. -/
def arange (start stop step : ℚ) : List ℚ :=
  (List.range ⌈(stop - start) / step⌉.toNat).map fun (i : ℕ) => start + (i : ℚ) * step

/-- The offset table of `_lttb`:
`np.arange(start=1, stop=y.shape[0], step=block_size).astype(np.int64)`.
Every generated float is `≥ 1`, so the toward-zero `astype` truncation
coincides with `Int.floor`. -/
def lttbOffsets (n n_out : ℕ) : List ℤ :=
  (arange 1 (n : ℚ) (blockSize n n_out)).map Int.floor

/-- The interior loop `for i in range(n_out - 3)` of `_lttb` (the middle
argument counts the remaining iterations): threads the previously selected
index `a`, and collects the indices written to output slots `1 .. n_out-3`.
Subexpressions are evaluated in Python order, so `x[a]`/`y[a]` raise
`IndexError` first and `_argmax_area` raises `ValueError` on an empty current
bucket. -/
def lttbLoop (x y : List ℚ) (offset : List ℤ) :
    ℕ → ℕ → ℤ → Except PyError (List ℤ × ℤ)
  | _, 0, a => .ok ([], a)
  | i, k + 1, a => do
    let xa ← npGet x a
    let ya ← npGet y a
    let o1 ← npGet offset ((i : ℤ) + 1)
    let o2 ← npGet offset ((i : ℤ) + 2)
    let avgx := npMean (npSlice x o1 o2)
    let avgy := npMean (npSlice y o1 o2)
    let o0 ← npGet offset (i : ℤ)
    let j ← argmax_area xa ya avgx avgy (npSlice x o0 o1) (npSlice y o0 o1)
    let a2 := (j : ℤ) + o0
    let pr ← lttbLoop x y offset (i + 1) k a2
    .ok (a2 :: pr.1, pr.2)

/-- `_lttb(x, y, n_out)`: offset table, interior loop, then the edge case
where the "next average" is the last data point itself and the candidate
bucket is `x[offset[-2] : offset[-1]]`; the result array is
`[0] ++ interior slots ++ [last interior slot, x.shape[0] - 1]`.
Faithful on the component's contract `n_out ≥ 3`; for `n_out = 2` Python
raises `ZeroDivisionError` computing `block_size`, and for `n_out < 2` the
uninitialized `np.empty(n_out)` is involved — neither is modelled. -/
def lttbRun (x y : List ℚ) (n_out : ℕ) : Except PyError (List ℤ) := do
  let offset := lttbOffsets y.length n_out
  let pr ← lttbLoop x y offset 0 (n_out - 3) 0
  let xa ← npGet x pr.2
  let ya ← npGet y pr.2
  let xl ← npGet x (-1)
  let yl ← npGet y (-1)
  let om2 ← npGet offset (-2)
  let om1 ← npGet offset (-1)
  let j ← argmax_area xa ya xl yl (npSlice x om2 om1) (npSlice y om2 om1)
  .ok (0 :: pr.1 ++ [(j : ℤ) + om2, (x.length : ℤ) - 1])

/-- `_nth_point(x, y, n_out)`.  The body's first statement is
`n_samples = len(s)` and `s` is bound nowhere (neither a parameter nor a
module-level name), so every invocation raises `NameError` before the
documented stride computation `np.arange(0, n_samples, max(1, ceil(n_samples / n_out)))`
is ever reached. -/
def nth_point (_x _y : List ℚ) (_n_out : ℕ) : Except PyError (List ℤ) :=
  .error .nameError

/-- A y column together with its dtype: boolean or numeric. -/
inductive ColY where
  | bools : List Bool → ColY
  | nums : List ℚ → ColY
deriving DecidableEq, Repr

def ColY.length : ColY → ℕ
  | .bools l => l.length
  | .nums l => l.length

def ColY.isBool : ColY → Bool
  | .bools _ => true
  | .nums _ => false

/-- The `np.int8` image of a boolean: `False → 0`, `True → 1`. -/
def boolToQ (b : Bool) : ℚ := if b then 1 else 0

/-- The numeric array handed to the selection algorithm:
`ys.astype(np.int8)` when the dtype is boolean, the values unchanged
otherwise. -/
def ColY.asNums : ColY → List ℚ
  | .bools l => l.map boolToQ
  | .nums l => l

def ColY.select : ColY → List ℕ → ColY
  | .bools l, idx => .bools (idx.map fun i => l.getD i false)
  | .nums l, idx => .nums (idx.map fun i => l.getD i 0)

/-- Modelled from the spec: the tabular data object consumed by
`downsample1d._process`, reduced to its two declared dimensions
(`dimension_values(0) = xs`, `dimension_values(1) = ys`, aligned columns)
with `len` the row count. -/
structure Element where
  xs : List ℚ
  ys : ColY
deriving DecidableEq, Repr

def Element.len (e : Element) : ℕ := e.xs.length

/-- Row selection by (in-range) position, keeping column dtypes. -/
def Element.select (e : Element) (idx : List ℕ) : Element :=
  ⟨idx.map (fun i => e.xs.getD i 0), e.ys.select idx⟩

/-- Modelled from the spec: `element[slice(lo, hi)]`, the half-open x-range
row filter applied before the length check. -/
def Element.xfilter (e : Element) (lo hi : ℚ) : Element :=
  e.select ((List.range e.xs.length).filter
    fun i => decide (lo ≤ e.xs.getD i 0) && decide (e.xs.getD i 0 < hi))

/-- Modelled from the spec: `element.iloc[samples]`, row-index selection over
the original rows; positions must be in range. -/
def Element.iloc (e : Element) (idx : List ℤ) : Except PyError Element :=
  if idx.all (fun i => decide (0 ≤ i) && decide (i < (e.len : ℤ))) then
    .ok (e.select (idx.map Int.toNat))
  else .error .indexError

/-- `if self.p.x_range: element = element[slice(*self.p.x_range)]` — the
range filter is applied exactly when an x-range is configured. -/
def applyXRange (element : Element) (x_range : Option (ℚ × ℚ)) : Element :=
  match x_range with
  | some (lo, hi) => element.xfilter lo hi
  | none => element

/-- `downsample1d._process(element)`: the optional x-range filter first, then
the `len(element) ≤ width` short-circuit, then the boolean-dtype cast of `ys`,
then `_ALGORITHMS[algorithm]` dispatch (a missing key raises `KeyError`), and
finally `element.iloc[samples]` over the *uncast* (filtered) element. -/
def process (element : Element) (x_range : Option (ℚ × ℚ)) (width : ℕ)
    (algorithm : String) : Except PyError Element :=
  let element := applyXRange element x_range
  if element.len ≤ width then .ok element
  else do
    let xs := element.xs
    let ys := element.ys.asNums
    let samples ← match algorithm with
      | "lttb" => lttbRun xs ys width
      | "nth" => nth_point xs ys width
      | _ => .error .keyError
    element.iloc samples

/-- Abbreviation for the `i`-th entry of the `_lttb` offset table. -/
def offD (n n_out t : ℕ) : ℤ := (lttbOffsets n n_out).getD t 0

/-- The "even integer division" offset construction that the spec warns
against (integer stride `(n - 2) / (n_out - 2)`), for comparison with the
truncation-based stepping actually performed by `_lttb`. -/
def offsetsIntegerDivision (n n_out : ℕ) : List ℤ :=
  (List.range (n_out - 1)).map fun (i : ℕ) =>
    1 + (i : ℤ) * (((n : ℤ) - 2) / ((n_out : ℤ) - 2))

/-! ### Basic lemmas about the embedded primitives -/

theorem ok_bind {α β : Type} (a : α) (f : α → Except PyError β) :
    (Except.ok a >>= f) = f a := rfl

theorem error_bind {α β : Type} (e : PyError) (f : α → Except PyError β) :
    ((Except.error e : Except PyError α) >>= f) = .error e := rfl

theorem npGet_ok {α : Type} (l : List α) (i : ℤ) (h0 : 0 ≤ i)
    (h1 : i.toNat < l.length) : npGet l i = .ok (l.get ⟨i.toNat, h1⟩) := by
  have hni : ¬ i < 0 := by omega
  simp only [npGet, hni, if_false]
  exact dif_pos ⟨h0, h1⟩

theorem npGet_neg {α : Type} (l : List α) (i : ℤ) (hneg : i < 0)
    (h0 : 0 ≤ i + l.length) (h1 : (i + l.length).toNat < l.length) :
    npGet l i = .ok (l.get ⟨(i + l.length).toNat, h1⟩) := by
  simp only [npGet, hneg, if_true]
  exact dif_pos ⟨h0, h1⟩

theorem npGet_ok_inv {α : Type} (l : List α) (i : ℤ) (v d : α)
    (h0 : 0 ≤ i) (h : npGet l i = .ok v) :
    i.toNat < l.length ∧ v = l.getD i.toNat d := by
  have hni : ¬ i < 0 := by omega
  simp only [npGet, hni, if_false] at h
  by_cases hc : 0 ≤ i ∧ i.toNat < l.length
  · rw [dif_pos hc] at h
    injection h with h
    exact ⟨hc.2, by rw [← h, List.getD_eq_getElem _ _ hc.2]; rfl⟩
  · rw [dif_neg hc] at h
    exact absurd h (by simp)

theorem npGet_toNat {α : Type} (l : List α) (d : α) (a : ℤ) (h0 : 0 ≤ a)
    (h1 : a.toNat < l.length) : npGet l a = .ok (l.getD a.toNat d) := by
  rw [npGet_ok l a h0 h1, List.getD_eq_getElem _ _ h1]
  simp

theorem npGet_natCast {α : Type} (l : List α) (d : α) (i : ℕ) (hi : i < l.length) :
    npGet l (i : ℤ) = .ok (l.getD i d) := by
  have h2 : ((i : ℤ)).toNat < l.length := by simpa using hi
  rw [npGet_toNat l d (i : ℤ) (by omega) h2]
  simp

theorem npGet_neg_one {α : Type} (l : List α) (d : α) (h : 0 < l.length) :
    npGet l (-1) = .ok (l.getD (l.length - 1) d) := by
  have h0 : 0 ≤ (-1 : ℤ) + l.length := by omega
  have h1 : ((-1 : ℤ) + l.length).toNat < l.length := by omega
  have he : ((-1 : ℤ) + l.length).toNat = l.length - 1 := by omega
  rw [npGet_neg l (-1) (by omega) h0 h1,
    List.getD_eq_getElem _ _ (show l.length - 1 < l.length by omega)]
  simp only [List.get_eq_getElem, he]

theorem npGet_neg_two {α : Type} (l : List α) (d : α) (h : 2 ≤ l.length) :
    npGet l (-2) = .ok (l.getD (l.length - 2) d) := by
  have h0 : 0 ≤ (-2 : ℤ) + l.length := by omega
  have h1 : ((-2 : ℤ) + l.length).toNat < l.length := by omega
  have he : ((-2 : ℤ) + l.length).toNat = l.length - 2 := by omega
  rw [npGet_neg l (-2) (by omega) h0 h1,
    List.getD_eq_getElem _ _ (show l.length - 2 < l.length by omega)]
  simp only [List.get_eq_getElem, he]

theorem npSlice_length {α : Type} (l : List α) (lo hi : ℤ) :
    (npSlice l lo hi).length = min hi.toNat l.length - lo.toNat := by
  simp [npSlice]

theorem npSlice_getD {α : Type} (l : List α) (lo hi : ℤ) (t : ℕ) (d : α)
    (ht : t < (npSlice l lo hi).length) :
    (npSlice l lo hi).getD t d = l.getD (lo.toNat + t) d := by
  have hlen := npSlice_length l lo hi
  have h1 : lo.toNat + t < l.length := by omega
  rw [List.getD_eq_getElem _ _ ht, List.getD_eq_getElem _ _ h1]
  simp only [npSlice, List.getElem_drop, List.getElem_take]

theorem argmaxPair_nil : argmaxPair [] = none := rfl

theorem argmaxPair_cons_isSome (v : ℚ) (rest : List ℚ) :
    (argmaxPair (v :: rest)).isSome := by
  simp only [argmaxPair]
  cases argmaxPair rest with
  | none => rfl
  | some p =>
    obtain ⟨j, m⟩ := p
    by_cases h : m ≤ v <;> simp [h]

theorem argmaxPair_spec (l : List ℚ) : ∀ (i : ℕ) (m : ℚ),
    argmaxPair l = some (i, m) →
    i < l.length ∧ l.getD i 0 = m ∧ (∀ j, j < l.length → l.getD j 0 ≤ m) ∧
      (∀ j, j < i → l.getD j 0 < m) := by
  induction l with
  | nil => intro i m h; exact absurd h (by simp [argmaxPair])
  | cons v rest ih =>
    intro i m h
    simp only [argmaxPair] at h
    cases hrest : argmaxPair rest with
    | none =>
      rw [hrest] at h
      have hr : rest = [] := by
        cases rest with
        | nil => rfl
        | cons w ws =>
          have hs := argmaxPair_cons_isSome w ws
          rw [hrest] at hs
          exact absurd hs (by simp)
      simp only [Option.some.injEq, Prod.mk.injEq] at h
      obtain ⟨rfl, rfl⟩ := h
      subst hr
      refine ⟨by simp, rfl, ?_, by omega⟩
      intro j hj
      have : j = 0 := by simpa using hj
      subst this
      exact le_refl _
    | some p =>
      obtain ⟨j', m'⟩ := p
      rw [hrest] at h
      dsimp only at h
      obtain ⟨ih1, ih2, ih3, ih4⟩ := ih j' m' hrest
      by_cases hcmp : m' ≤ v
      · rw [if_pos hcmp] at h
        simp only [Option.some.injEq, Prod.mk.injEq] at h
        obtain ⟨rfl, rfl⟩ := h
        refine ⟨by simp, rfl, ?_, by omega⟩
        intro j hj
        cases j with
        | zero => exact le_refl _
        | succ t =>
          rw [List.getD_cons_succ]
          exact le_trans (ih3 t (by simpa using hj)) hcmp
      · rw [if_neg hcmp] at h
        have hvm : v < m' := lt_of_not_le hcmp
        simp only [Option.some.injEq, Prod.mk.injEq] at h
        obtain ⟨rfl, rfl⟩ := h
        refine ⟨by simpa using Nat.succ_lt_succ ih1, by rw [List.getD_cons_succ]; exact ih2,
          ?_, ?_⟩
        · intro j hj
          cases j with
          | zero => exact le_of_lt hvm
          | succ t =>
            rw [List.getD_cons_succ]
            exact ih3 t (by simpa using hj)
        · intro j hj
          cases j with
          | zero => exact hvm
          | succ t =>
            rw [List.getD_cons_succ]
            exact ih4 t (by omega)

theorem argmaxPair_of_ne (l : List ℚ) (h : l ≠ []) :
    ∃ i m, argmaxPair l = some (i, m) := by
  cases l with
  | nil => exact absurd rfl h
  | cons v rest =>
    have hs := argmaxPair_cons_isSome v rest
    obtain ⟨p, hp⟩ := Option.isSome_iff_exists.mp hs
    exact ⟨p.1, p.2, hp⟩

theorem argmax_area_ok_inv (px py ax ay : ℚ) (xb yb : List ℚ) (i : ℕ)
    (h : argmax_area px py ax ay xb yb = .ok i) :
    i < (List.zipWith (triArea px py ax ay) xb yb).length ∧
      (∀ j, j < (List.zipWith (triArea px py ax ay) xb yb).length →
        (List.zipWith (triArea px py ax ay) xb yb).getD j 0 ≤
          (List.zipWith (triArea px py ax ay) xb yb).getD i 0) ∧
      (∀ j, j < i →
        (List.zipWith (triArea px py ax ay) xb yb).getD j 0 <
          (List.zipWith (triArea px py ax ay) xb yb).getD i 0) := by
  simp only [argmax_area, npArgmax] at h
  cases hp : argmaxPair (List.zipWith (triArea px py ax ay) xb yb) with
  | none => rw [hp] at h; exact absurd h (by simp)
  | some p =>
    obtain ⟨i', m⟩ := p
    rw [hp] at h
    dsimp only [Option.map] at h
    have hii : i' = i := by
      have := h
      simp only [Except.ok.injEq] at this
      exact this
    subst hii
    obtain ⟨h1, h2, h3, _⟩ := argmaxPair_spec _ _ _ hp
    rw [h2]
    exact ⟨h1, h3, fun j hj => h2 ▸ (argmaxPair_spec _ _ _ hp).2.2.2 j hj⟩

theorem argmax_area_of_ne (px py ax ay : ℚ) (xb yb : List ℚ)
    (hne : List.zipWith (triArea px py ax ay) xb yb ≠ []) :
    ∃ i, argmax_area px py ax ay xb yb = .ok i ∧
      i < (List.zipWith (triArea px py ax ay) xb yb).length := by
  obtain ⟨i, m, hp⟩ := argmaxPair_of_ne _ hne
  refine ⟨i, ?_, (argmaxPair_spec _ _ _ hp).1⟩
  simp only [argmax_area, npArgmax, hp]
  rfl

/-! ### The offset table -/

theorem blockSize_pos (n n_out : ℕ) (h3 : 3 ≤ n_out) (hn : n_out ≤ n) :
    0 < blockSize n n_out := by
  have hb : (3 : ℚ) ≤ (n_out : ℚ) := by exact_mod_cast h3
  have ha : (n_out : ℚ) ≤ (n : ℚ) := by exact_mod_cast hn
  apply div_pos <;> linarith

theorem lttbOffsets_length (n n_out : ℕ) (h3 : 3 ≤ n_out) (hn : n_out ≤ n) :
    (lttbOffsets n n_out).length = n_out - 1 := by
  have hb : (3 : ℚ) ≤ (n_out : ℚ) := by exact_mod_cast h3
  have ha : (n_out : ℚ) ≤ (n : ℚ) := by exact_mod_cast hn
  have hden : (0 : ℚ) < (n : ℚ) - 2 := by linarith
  have hden2 : (0 : ℚ) < (n_out : ℚ) - 2 := by linarith
  have hceil : ⌈((n : ℚ) - 1) / blockSize n n_out⌉ = (n_out : ℤ) - 1 := by
    rw [Int.ceil_eq_iff]
    unfold blockSize
    rw [div_div_eq_mul_div]
    constructor
    · rw [lt_div_iff₀ hden]
      push_cast
      nlinarith
    · rw [div_le_iff₀ hden]
      push_cast
      nlinarith
  have harg : (n : ℚ) - 1 = (n : ℚ) - 1 := rfl
  simp only [lttbOffsets, arange, List.length_map, List.length_range]
  rw [hceil]
  omega

theorem lttbOffsets_getD (n n_out : ℕ) (i : ℕ)
    (hi : i < (lttbOffsets n n_out).length) :
    (lttbOffsets n n_out).getD i 0 = ⌊1 + (i : ℚ) * blockSize n n_out⌋ := by
  simp only [lttbOffsets, arange] at hi ⊢
  rw [List.getD_eq_getElem _ _ hi]
  simp

theorem lttbOffsets_bounds (n n_out : ℕ) (h3 : 3 ≤ n_out) (hn : n_out ≤ n)
    (i : ℕ) (hi : i < (lttbOffsets n n_out).length) :
    1 ≤ (lttbOffsets n n_out).getD i 0 ∧
      (lttbOffsets n n_out).getD i 0 ≤ (n : ℤ) - 1 := by
  have hbs := blockSize_pos n n_out h3 hn
  have hlen := lttbOffsets_length n n_out h3 hn
  rw [lttbOffsets_getD n n_out i hi]
  constructor
  · rw [Int.le_floor]
    have h0 : 0 ≤ (i : ℚ) * blockSize n n_out := by positivity
    push_cast
    linarith
  · have hi2 : (i : ℚ) ≤ (n_out : ℚ) - 2 := by
      have h1 : i ≤ n_out - 2 := by omega
      have h2 : ((n_out - 2 : ℕ) : ℚ) = (n_out : ℚ) - 2 := by
        push_cast [Nat.cast_sub (by omega : 2 ≤ n_out)]
        ring
      calc (i : ℚ) ≤ ((n_out - 2 : ℕ) : ℚ) := by exact_mod_cast h1
        _ = (n_out : ℚ) - 2 := h2
    have hkey : ((n_out : ℚ) - 2) * blockSize n n_out = (n : ℚ) - 2 := by
      unfold blockSize
      have : ((n_out : ℚ) - 2) ≠ 0 := by
        have : (3 : ℚ) ≤ (n_out : ℚ) := by exact_mod_cast h3
        linarith
      field_simp
    have hle : (1 : ℚ) + (i : ℚ) * blockSize n n_out ≤ (n : ℚ) - 1 := by
      have := mul_le_mul_of_nonneg_right hi2 hbs.le
      linarith
    calc ⌊1 + (i : ℚ) * blockSize n n_out⌋ ≤ ⌊(n : ℚ) - 1⌋ := Int.floor_le_floor hle
      _ = (n : ℤ) - 1 := by
          rw [show (n : ℚ) - 1 = (((n : ℤ) - 1 : ℤ) : ℚ) by push_cast; ring]
          exact Int.floor_intCast _

theorem lttbOffsets_last (n n_out : ℕ) (h3 : 3 ≤ n_out) (hn : n_out ≤ n) :
    (lttbOffsets n n_out).getD (n_out - 2) 0 = (n : ℤ) - 1 := by
  have hlen := lttbOffsets_length n n_out h3 hn
  rw [lttbOffsets_getD n n_out (n_out - 2) (by omega)]
  have h2 : ((n_out - 2 : ℕ) : ℚ) = (n_out : ℚ) - 2 := by
    push_cast [Nat.cast_sub (by omega : 2 ≤ n_out)]
    ring
  have hkey : ((n_out : ℚ) - 2) * blockSize n n_out = (n : ℚ) - 2 := by
    unfold blockSize
    have h3q : (3 : ℚ) ≤ (n_out : ℚ) := by exact_mod_cast h3
    have : ((n_out : ℚ) - 2) ≠ 0 := by linarith
    field_simp
  rw [h2, hkey]
  rw [show (1 : ℚ) + ((n : ℚ) - 2) = (((n : ℤ) - 1 : ℤ) : ℚ) by push_cast; ring]
  exact Int.floor_intCast _

/-! ### The interior loop invariant -/

theorem lttbLoop_spec (x y : List ℚ) (offset : List ℤ)
    (hxy : y.length = x.length)
    (hmono : ∀ t, t + 1 < offset.length →
      offset.getD t 0 < offset.getD (t + 1) 0)
    (hlow : ∀ t, t < offset.length → 1 ≤ offset.getD t 0)
    (hupp : ∀ t, t < offset.length → offset.getD t 0 < (x.length : ℤ)) :
    ∀ (k i : ℕ) (a : ℤ), 0 ≤ a → a < (x.length : ℤ) →
      i + k + 1 < offset.length →
    ∃ rs : List ℤ,
      lttbLoop x y offset i k a = .ok (rs, rs.getLastD a) ∧
      rs.length = k ∧
      (∀ t, t < k → offset.getD (i + t) 0 ≤ rs.getD t 0 ∧
        rs.getD t 0 < offset.getD (i + t + 1) 0) ∧
      0 ≤ rs.getLastD a ∧ rs.getLastD a < (x.length : ℤ) := by
  intro k
  induction k with
  | zero =>
    intro i a ha0 ha1 _
    exact ⟨[], rfl, rfl, by omega, by simpa using ha0, by simpa using ha1⟩
  | succ k ih =>
    intro i a ha0 ha1 hbound
    have hta : a.toNat < x.length := by omega
    have htay : a.toNat < y.length := by rw [hxy]; exact hta
    have hi0 : i < offset.length := by omega
    have hi1 : i + 1 < offset.length := by omega
    have hi2 : i + 2 < offset.length := by omega
    have hxa := npGet_toNat x 0 a ha0 hta
    have hya := npGet_toNat y 0 a ha0 htay
    have ho0 := npGet_natCast offset (0 : ℤ) i hi0
    have ho1 : npGet offset ((i : ℤ) + 1) = .ok (offset.getD (i + 1) 0) := by
      have h := npGet_natCast offset (0 : ℤ) (i + 1) hi1
      rwa [show ((i + 1 : ℕ) : ℤ) = (i : ℤ) + 1 by push_cast; ring] at h
    have ho2 : npGet offset ((i : ℤ) + 2) = .ok (offset.getD (i + 2) 0) := by
      have h := npGet_natCast offset (0 : ℤ) (i + 2) hi2
      rwa [show ((i + 2 : ℕ) : ℤ) = (i : ℤ) + 2 by push_cast; ring] at h
    -- bucket facts
    have hO0 : 1 ≤ offset.getD i 0 := hlow i hi0
    have hO01 : offset.getD i 0 < offset.getD (i + 1) 0 := hmono i hi1
    have hO1x : offset.getD (i + 1) 0 < (x.length : ℤ) := hupp (i + 1) hi1
    have hxb := npSlice_length x (offset.getD i 0) (offset.getD (i + 1) 0)
    have hyb := npSlice_length y (offset.getD i 0) (offset.getD (i + 1) 0)
    have hxblen : (npSlice x (offset.getD i 0) (offset.getD (i + 1) 0)).length
        = (offset.getD (i + 1) 0).toNat - (offset.getD i 0).toNat := by
      rw [hxb]; omega
    have hyblen : (npSlice y (offset.getD i 0) (offset.getD (i + 1) 0)).length
        = (offset.getD (i + 1) 0).toNat - (offset.getD i 0).toNat := by
      rw [hyb, hxy]; omega
    have hzlen : (List.zipWith
        (triArea (x.getD a.toNat 0) (y.getD a.toNat 0)
          (npMean (npSlice x (offset.getD (i + 1) 0) (offset.getD (i + 2) 0)))
          (npMean (npSlice y (offset.getD (i + 1) 0) (offset.getD (i + 2) 0))))
        (npSlice x (offset.getD i 0) (offset.getD (i + 1) 0))
        (npSlice y (offset.getD i 0) (offset.getD (i + 1) 0))).length
        = (offset.getD (i + 1) 0).toNat - (offset.getD i 0).toNat := by
      rw [List.length_zipWith, hxblen, hyblen]; omega
    obtain ⟨j, hj, hjlt⟩ := argmax_area_of_ne
      (x.getD a.toNat 0) (y.getD a.toNat 0)
      (npMean (npSlice x (offset.getD (i + 1) 0) (offset.getD (i + 2) 0)))
      (npMean (npSlice y (offset.getD (i + 1) 0) (offset.getD (i + 2) 0)))
      (npSlice x (offset.getD i 0) (offset.getD (i + 1) 0))
      (npSlice y (offset.getD i 0) (offset.getD (i + 1) 0))
      (by
        apply List.ne_nil_of_length_pos
        rw [hzlen]; omega)
    rw [hzlen] at hjlt
    -- the newly selected index
    have ha20 : 0 ≤ (j : ℤ) + offset.getD i 0 := by omega
    have ha2lt : (j : ℤ) + offset.getD i 0 < offset.getD (i + 1) 0 := by omega
    have ha2x : (j : ℤ) + offset.getD i 0 < (x.length : ℤ) := by omega
    obtain ⟨rs', hrec, hlen', hcont', hb0', hb1'⟩ :=
      ih (i + 1) ((j : ℤ) + offset.getD i 0) ha20 ha2x (by omega)
    refine ⟨((j : ℤ) + offset.getD i 0) :: rs', ?_, by simpa using hlen', ?_, ?_, ?_⟩
    · simp only [lttbLoop, hxa, hya, ho0, ho1, ho2, hj, hrec, ok_bind]
      rw [List.getLastD_cons]
    · intro t ht
      cases t with
      | zero =>
        simp only [List.getD_cons_zero, Nat.add_zero]
        omega
      | succ t =>
        rw [List.getD_cons_succ]
        have h := hcont' t (by omega)
        rw [show i + 1 + t = i + (t + 1) by omega] at h
        exact h
    · rw [List.getLastD_cons]; exact hb0'
    · rw [List.getLastD_cons]; exact hb1'

/-! ### The complete `_lttb` run -/

theorem lttbRun_master (x y : List ℚ) (n_out : ℕ)
    (h3 : 3 ≤ n_out) (hn : n_out ≤ y.length) (hxy : x.length = y.length)
    (hchain : List.Chain' (· < ·) (lttbOffsets y.length n_out)) :
    ∃ (rs : List ℤ) (j : ℕ),
      lttbLoop x y (lttbOffsets y.length n_out) 0 (n_out - 3) 0
        = .ok (rs, rs.getLastD 0) ∧
      rs.length = n_out - 3 ∧
      (∀ t, t < n_out - 3 → offD y.length n_out t ≤ rs.getD t 0 ∧
        rs.getD t 0 < offD y.length n_out (t + 1)) ∧
      argmax_area (x.getD (rs.getLastD 0).toNat 0) (y.getD (rs.getLastD 0).toNat 0)
        (x.getD (x.length - 1) 0) (y.getD (y.length - 1) 0)
        (npSlice x (offD y.length n_out (n_out - 3)) (offD y.length n_out (n_out - 2)))
        (npSlice y (offD y.length n_out (n_out - 3)) (offD y.length n_out (n_out - 2)))
        = .ok j ∧
      (j : ℤ) < offD y.length n_out (n_out - 2) - offD y.length n_out (n_out - 3) ∧
      offD y.length n_out (n_out - 2) = (y.length : ℤ) - 1 ∧
      1 ≤ offD y.length n_out (n_out - 3) ∧
      lttbRun x y n_out
        = .ok (0 :: rs ++
            [(j : ℤ) + offD y.length n_out (n_out - 3), (x.length : ℤ) - 1]) := by
  simp only [offD]
  have hylen3 : 3 ≤ y.length := by omega
  have hxlen3 : 3 ≤ x.length := by omega
  have hlen := lttbOffsets_length y.length n_out h3 hn
  have hmono : ∀ t, t + 1 < (lttbOffsets y.length n_out).length →
      (lttbOffsets y.length n_out).getD t 0
        < (lttbOffsets y.length n_out).getD (t + 1) 0 := by
    intro t ht
    have hc := List.chain'_iff_get.mp hchain t (by omega)
    rw [List.getD_eq_getElem _ _ (by omega), List.getD_eq_getElem _ _ (by omega)]
    simpa [List.get_eq_getElem] using hc
  have hlow : ∀ t, t < (lttbOffsets y.length n_out).length →
      1 ≤ (lttbOffsets y.length n_out).getD t 0 :=
    fun t ht => (lttbOffsets_bounds y.length n_out h3 hn t ht).1
  have hupp : ∀ t, t < (lttbOffsets y.length n_out).length →
      (lttbOffsets y.length n_out).getD t 0 < (x.length : ℤ) := by
    intro t ht
    have h2 := (lttbOffsets_bounds y.length n_out h3 hn t ht).2
    rw [hxy]
    omega
  obtain ⟨rs, hloop, hlen_rs, hcont, hb0, hb1⟩ :=
    lttbLoop_spec x y (lttbOffsets y.length n_out) hxy.symm hmono hlow hupp
      (n_out - 3) 0 0 le_rfl (by omega) (by omega)
  have hb1y : (rs.getLastD 0).toNat < y.length := by omega
  have hb1x : (rs.getLastD 0).toNat < x.length := by omega
  have hxa := npGet_toNat x 0 (rs.getLastD 0) hb0 hb1x
  have hya := npGet_toNat y 0 (rs.getLastD 0) hb0 hb1y
  have hxl := npGet_neg_one x 0 (by omega)
  have hyl := npGet_neg_one y 0 (by omega)
  have hom2 := npGet_neg_two (lttbOffsets y.length n_out) 0 (by omega)
  have hom1 := npGet_neg_one (lttbOffsets y.length n_out) 0 (by omega)
  rw [hlen, show n_out - 1 - 2 = n_out - 3 by omega] at hom2
  rw [hlen, show n_out - 1 - 1 = n_out - 2 by omega] at hom1
  have hlast := lttbOffsets_last y.length n_out h3 hn
  have hm32 : (lttbOffsets y.length n_out).getD (n_out - 3) 0
      < (lttbOffsets y.length n_out).getD (n_out - 2) 0 := by
    have := hmono (n_out - 3) (by omega)
    rwa [show n_out - 3 + 1 = n_out - 2 by omega] at this
  have hlow3 : 1 ≤ (lttbOffsets y.length n_out).getD (n_out - 3) 0 :=
    hlow (n_out - 3) (by omega)
  have hxb := npSlice_length x ((lttbOffsets y.length n_out).getD (n_out - 3) 0)
    ((lttbOffsets y.length n_out).getD (n_out - 2) 0)
  have hyb := npSlice_length y ((lttbOffsets y.length n_out).getD (n_out - 3) 0)
    ((lttbOffsets y.length n_out).getD (n_out - 2) 0)
  have hzlen : (List.zipWith
      (triArea (x.getD (rs.getLastD 0).toNat 0) (y.getD (rs.getLastD 0).toNat 0)
        (x.getD (x.length - 1) 0) (y.getD (y.length - 1) 0))
      (npSlice x ((lttbOffsets y.length n_out).getD (n_out - 3) 0)
        ((lttbOffsets y.length n_out).getD (n_out - 2) 0))
      (npSlice y ((lttbOffsets y.length n_out).getD (n_out - 3) 0)
        ((lttbOffsets y.length n_out).getD (n_out - 2) 0))).length
      = ((lttbOffsets y.length n_out).getD (n_out - 2) 0).toNat
        - ((lttbOffsets y.length n_out).getD (n_out - 3) 0).toNat := by
    rw [List.length_zipWith, hxb, hyb]
    rw [hxy]
    omega
  obtain ⟨j, hj, hjlt⟩ := argmax_area_of_ne
    (x.getD (rs.getLastD 0).toNat 0) (y.getD (rs.getLastD 0).toNat 0)
    (x.getD (x.length - 1) 0) (y.getD (y.length - 1) 0)
    (npSlice x ((lttbOffsets y.length n_out).getD (n_out - 3) 0)
      ((lttbOffsets y.length n_out).getD (n_out - 2) 0))
    (npSlice y ((lttbOffsets y.length n_out).getD (n_out - 3) 0)
      ((lttbOffsets y.length n_out).getD (n_out - 2) 0))
    (by
      apply List.ne_nil_of_length_pos
      rw [hzlen]
      omega)
  rw [hzlen] at hjlt
  refine ⟨rs, j, hloop, hlen_rs, by simpa using hcont, hj, by omega, hlast, hlow3, ?_⟩
  simp only [lttbRun, hloop, hxa, hya, hxl, hyl, hom2, hom1, hj, ok_bind]

theorem getLast?_getD {α : Type} (l : List α) (d : α) (h : l ≠ []) :
    l.getLast? = some (l.getD (l.length - 1) d) := by
  have hlen : 0 < l.length := List.length_pos.mpr h
  rw [List.getLast?_eq_getElem?, List.getElem?_eq_getElem (by omega),
    List.getD_eq_getElem _ _ (by omega)]

theorem getD_append_left {α : Type} (l1 l2 : List α) (d : α) (t : ℕ)
    (h : t < l1.length) : (l1 ++ l2).getD t d = l1.getD t d := by
  rw [List.getD_eq_getElem _ _ (by rw [List.length_append]; omega),
    List.getD_eq_getElem _ _ h]
  exact List.getElem_append_left h

theorem getD_append_pair {α : Type} (l1 : List α) (a b d : α) :
    (l1 ++ [a, b]).getD l1.length d = a := by
  rw [List.getD_eq_getElem _ _ (by rw [List.length_append]; simp)]
  rw [List.getElem_append_right (le_refl l1.length)]
  simp

/-! ### Claim theorems -/

/-- C1: for `n_out ≥ 3`, `len(x) = len(y) = n ≥ n_out`, and every bucket
non-empty (the offset table strictly increasing), `_lttb` succeeds and the
returned index sequence has length exactly `n_out`, is strictly increasing,
has `0` as its first element and `n - 1` as its last element. -/
theorem lttb_selection_contract (x y : List ℚ) (n_out : ℕ)
    (h3 : 3 ≤ n_out) (hn : n_out ≤ y.length) (hxy : x.length = y.length)
    (hbuckets : List.Chain' (· < ·) (lttbOffsets y.length n_out)) :
    ∃ res : List ℤ, lttbRun x y n_out = .ok res ∧
      res.length = n_out ∧ List.Chain' (· < ·) res ∧
      res.head? = some 0 ∧ res.getLast? = some ((y.length : ℤ) - 1) := by
  obtain ⟨rs, j, _hloop, hlen_rs, hcont, _hj, hjlt, hlast, hlow3, hrun⟩ :=
    lttbRun_master x y n_out h3 hn hxy hbuckets
  simp only [offD] at hcont hjlt hlast hlow3 hrun
  have hlen := lttbOffsets_length y.length n_out h3 hn
  have hlow0 := (lttbOffsets_bounds y.length n_out h3 hn 0 (by omega)).1
  refine ⟨_, hrun, ?_, ?_, rfl, ?_⟩
  · simp only [List.length_cons, List.length_append]
    simp
    omega
  · rw [List.cons_append, List.chain'_cons']
    constructor
    · intro b hb
      cases rs with
      | nil =>
        simp only [List.nil_append, List.head?_cons, Option.mem_def,
          Option.some.injEq] at hb
        omega
      | cons r rrest =>
        simp only [List.cons_append, List.head?_cons, Option.mem_def,
          Option.some.injEq] at hb
        have h0 := hcont 0 (by simp at hlen_rs; omega)
        simp only [List.getD_cons_zero] at h0
        omega
    · rw [List.chain'_append]
      refine ⟨?_, ?_, ?_⟩
      · rw [List.chain'_iff_get]
        intro t ht
        have h1 := hcont t (by omega)
        have h2 := hcont (t + 1) (by omega)
        simp only [List.get_eq_getElem, Fin.val_mk]
        rw [← List.getD_eq_getElem rs 0 (by omega),
          ← List.getD_eq_getElem rs 0 (by omega)]
        omega
      · simp only [List.chain'_cons, List.chain'_singleton, and_true]
        rw [hxy]
        omega
      · intro a ha b hb
        simp only [List.head?_cons, Option.mem_def, Option.some.injEq] at hb
        subst hb
        cases rs with
        | nil => simp at ha
        | cons r rrest =>
          rw [getLast?_getD (r :: rrest) 0 (by simp)] at ha
          simp only [List.length_cons, Nat.add_sub_cancel, Option.mem_def,
            Option.some.injEq] at ha
          subst ha
          simp only [List.length_cons] at hlen_rs
          have h1 := hcont rrest.length (by omega)
          rw [hlen_rs] at h1
          omega
  · rw [show ((0 : ℤ) :: rs ++
        [(j : ℤ) + (lttbOffsets y.length n_out).getD (n_out - 3) 0,
          (x.length : ℤ) - 1])
      = ((0 :: rs ++ [(j : ℤ) + (lttbOffsets y.length n_out).getD (n_out - 3) 0])
          ++ [(x.length : ℤ) - 1]) by simp]
    rw [List.getLast?_concat, hxy]

/-- C9: under the same preconditions, each interior index selected by `_lttb`
lies inside its own bucket: the index in output slot `t + 1` lies in
`[offset[t], offset[t+1])`, for every interior slot (the last interior slot
being the bucket `[offset[-2], offset[-1])`). -/
theorem lttb_bucket_containment (x y : List ℚ) (n_out : ℕ)
    (h3 : 3 ≤ n_out) (hn : n_out ≤ y.length) (hxy : x.length = y.length)
    (hbuckets : List.Chain' (· < ·) (lttbOffsets y.length n_out)) :
    ∃ res : List ℤ, lttbRun x y n_out = .ok res ∧
      ∀ t, t < n_out - 2 →
        offD y.length n_out t ≤ res.getD (t + 1) 0 ∧
        res.getD (t + 1) 0 < offD y.length n_out (t + 1) := by
  obtain ⟨rs, j, _hloop, hlen_rs, hcont, _hj, hjlt, hlast, hlow3, hrun⟩ :=
    lttbRun_master x y n_out h3 hn hxy hbuckets
  refine ⟨_, hrun, ?_⟩
  intro t ht
  rw [List.cons_append, List.getD_cons_succ]
  by_cases hta : t < rs.length
  · rw [getD_append_left _ _ _ _ hta]
    exact hcont t (by omega)
  · have ht' : t = rs.length := by omega
    subst ht'
    rw [getD_append_pair, hlen_rs, show n_out - 3 + 1 = n_out - 2 by omega]
    omega

theorem zipWith_getD (f : ℚ → ℚ → ℚ) (l1 l2 : List ℚ) (t : ℕ)
    (h : t < (List.zipWith f l1 l2).length) :
    (List.zipWith f l1 l2).getD t 0 = f (l1.getD t 0) (l2.getD t 0) := by
  have h1 : t < l1.length := by simp [List.length_zipWith] at h; omega
  have h2 : t < l2.length := by simp [List.length_zipWith] at h; omega
  rw [List.getD_eq_getElem _ _ h, List.getElem_zipWith,
    List.getD_eq_getElem _ _ h1, List.getD_eq_getElem _ _ h2]

theorem bind_ok_inv {α β : Type} (e : Except PyError α) (f : α → Except PyError β)
    (b : β) (h : (e >>= f) = .ok b) : ∃ a, e = .ok a ∧ f a = .ok b := by
  cases e with
  | error err => rw [error_bind] at h; exact Except.noConfusion h
  | ok a => exact ⟨a, rfl, h⟩

/-- C7: under the `_lttb` preconditions, the final interior output slot
(index `n_out - 2`) is chosen by the same area argmax as all other slots,
except that the "next average" is the last data point `(x[n-1], y[n-1])`
itself and the candidate bucket is `x[offset[-2] : offset[-1]]`
(with `offset[-1] = n - 1`). -/
theorem lttb_last_slot (x y : List ℚ) (n_out : ℕ)
    (h3 : 3 ≤ n_out) (hn : n_out ≤ y.length) (hxy : x.length = y.length)
    (hbuckets : List.Chain' (· < ·) (lttbOffsets y.length n_out)) :
    ∃ (res : List ℤ) (rs : List ℤ) (j : ℕ),
      lttbRun x y n_out = .ok res ∧
      lttbLoop x y (lttbOffsets y.length n_out) 0 (n_out - 3) 0
        = .ok (rs, rs.getLastD 0) ∧
      argmax_area (x.getD (rs.getLastD 0).toNat 0) (y.getD (rs.getLastD 0).toNat 0)
        (x.getD (x.length - 1) 0) (y.getD (y.length - 1) 0)
        (npSlice x (offD y.length n_out (n_out - 3)) (offD y.length n_out (n_out - 2)))
        (npSlice y (offD y.length n_out (n_out - 3)) (offD y.length n_out (n_out - 2)))
        = .ok j ∧
      res.getD (n_out - 2) 0 = (j : ℤ) + offD y.length n_out (n_out - 3) ∧
      offD y.length n_out (n_out - 2) = (y.length : ℤ) - 1 := by
  obtain ⟨rs, j, hloop, hlen_rs, _hcont, hj, _hjlt, hlast, _hlow3, hrun⟩ :=
    lttbRun_master x y n_out h3 hn hxy hbuckets
  refine ⟨_, rs, j, hrun, hloop, hj, ?_, hlast⟩
  have hmid := getD_append_pair (0 :: rs)
    ((j : ℤ) + offD y.length n_out (n_out - 3)) ((x.length : ℤ) - 1) 0
  have hlc : (0 :: rs).length = n_out - 2 := by simp [hlen_rs]; omega
  rw [hlc] at hmid
  exact hmid

/-- C10: with `n_out = 3` and `n = len(x) = len(y) ≥ 3`, the offset table is
exactly `[1, n-1]`, the interior loop runs zero times, and the result is
`[0, j+1, n-1]` where `j+1` is the first index among `1 .. n-2` whose
triangle with the first data point `(x[0], y[0])` and the last data point
`(x[n-1], y[n-1])` has maximal absolute area. -/
theorem lttb_nout3 (x y : List ℚ)
    (hn : 3 ≤ y.length) (hxy : x.length = y.length) :
    lttbOffsets y.length 3 = [1, (y.length : ℤ) - 1] ∧
    lttbLoop x y (lttbOffsets y.length 3) 0 0 0 = .ok ([], 0) ∧
    ∃ j : ℕ,
      lttbRun x y 3 = .ok [0, (j : ℤ) + 1, (x.length : ℤ) - 1] ∧
      j < y.length - 2 ∧
      (∀ t, t < y.length - 2 →
        triArea (x.getD 0 0) (y.getD 0 0) (x.getD (x.length - 1) 0)
          (y.getD (y.length - 1) 0) (x.getD (1 + t) 0) (y.getD (1 + t) 0) ≤
        triArea (x.getD 0 0) (y.getD 0 0) (x.getD (x.length - 1) 0)
          (y.getD (y.length - 1) 0) (x.getD (1 + j) 0) (y.getD (1 + j) 0)) ∧
      (∀ t, t < j →
        triArea (x.getD 0 0) (y.getD 0 0) (x.getD (x.length - 1) 0)
          (y.getD (y.length - 1) 0) (x.getD (1 + t) 0) (y.getD (1 + t) 0) <
        triArea (x.getD 0 0) (y.getD 0 0) (x.getD (x.length - 1) 0)
          (y.getD (y.length - 1) 0) (x.getD (1 + j) 0) (y.getD (1 + j) 0)) := by
  have h3 : (3 : ℕ) ≤ 3 := le_rfl
  have hlen := lttbOffsets_length y.length 3 h3 hn
  obtain ⟨a, b, hab⟩ := List.length_eq_two.mp hlen
  have h0 : (lttbOffsets y.length 3).getD 0 0 = 1 := by
    rw [lttbOffsets_getD y.length 3 0 (by omega)]
    norm_num
  have h1 : (lttbOffsets y.length 3).getD 1 0 = (y.length : ℤ) - 1 :=
    lttbOffsets_last y.length 3 h3 hn
  rw [hab] at h0 h1
  simp only [List.getD_cons_zero, List.getD_cons_succ] at h0 h1
  subst h0 h1
  have hoffs : lttbOffsets y.length 3 = [1, (y.length : ℤ) - 1] := hab
  have hchain : List.Chain' (· < ·) (lttbOffsets y.length 3) := by
    rw [hoffs]
    simp only [List.chain'_cons, List.chain'_singleton, and_true]
    omega
  obtain ⟨rs, j, hloop, hlen_rs, _hcont, hj, hjlt, hlast, _hlow3, hrun⟩ :=
    lttbRun_master x y 3 h3 hn hxy hchain
  have hrs : rs = [] := List.length_eq_zero.mp (by omega)
  subst hrs
  simp only [List.getLastD_nil] at hloop
  simp only [offD, hoffs] at hj hjlt hrun
  simp only [show (3 : ℕ) - 3 = 0 from rfl, show (3 : ℕ) - 2 = 1 from rfl,
    List.getD_cons_zero, List.getD_cons_succ, List.getLastD_nil, Int.toNat_zero,
    List.cons_append, List.nil_append] at hj hjlt hrun
  have hinv := argmax_area_ok_inv _ _ _ _ _ _ _ hj
  have hxblen := npSlice_length x 1 ((y.length : ℤ) - 1)
  have hyblen := npSlice_length y 1 ((y.length : ℤ) - 1)
  have hLlen : (List.zipWith
      (triArea (x.getD 0 0) (y.getD 0 0) (x.getD (x.length - 1) 0)
        (y.getD (y.length - 1) 0))
      (npSlice x 1 ((y.length : ℤ) - 1))
      (npSlice y 1 ((y.length : ℤ) - 1))).length = y.length - 2 := by
    rw [List.length_zipWith, hxblen, hyblen, hxy]
    omega
  rw [hLlen] at hinv
  have hconv : ∀ t, t < y.length - 2 →
      (List.zipWith
        (triArea (x.getD 0 0) (y.getD 0 0) (x.getD (x.length - 1) 0)
          (y.getD (y.length - 1) 0))
        (npSlice x 1 ((y.length : ℤ) - 1))
        (npSlice y 1 ((y.length : ℤ) - 1))).getD t 0
      = triArea (x.getD 0 0) (y.getD 0 0) (x.getD (x.length - 1) 0)
          (y.getD (y.length - 1) 0) (x.getD (1 + t) 0) (y.getD (1 + t) 0) := by
    intro t ht
    rw [zipWith_getD _ _ _ _ (by rw [hLlen]; exact ht),
      npSlice_getD x 1 ((y.length : ℤ) - 1) t 0 (by rw [hxblen]; omega),
      npSlice_getD y 1 ((y.length : ℤ) - 1) t 0 (by rw [hyblen]; rw [hxy] at hxblen; omega)]
    norm_num
  refine ⟨hoffs, hloop, j, hrun, hinv.1, ?_, ?_⟩
  · intro t ht
    have h := hinv.2.1 t ht
    rw [hconv t ht, hconv j hinv.1] at h
    exact h
  · intro t ht
    have h := hinv.2.2 t ht
    rw [hconv t (by omega), hconv j hinv.1] at h
    exact h

/-- C6: whenever one interior iteration of the `_lttb` loop succeeds, the
index it writes to the current slot is `offset[i]` plus the first-maximal
(stable) argmax, over the current bucket `x[offset[i]:offset[i+1]]`, of the
absolute shoelace area against the previously selected point `(x[a], y[a])`
and the next bucket's centroid — the arithmetic means of the *raw* slices
`x[offset[i+1]:offset[i+2]]` and `y[offset[i+1]:offset[i+2]]`. -/
theorem lttb_step (x y : List ℚ) (offset : List ℤ) (i k : ℕ) (a : ℤ)
    (rs : List ℤ) (afin : ℤ)
    (h : lttbLoop x y offset i (k + 1) a = .ok (rs, afin)) :
    ∃ (xa ya : ℚ) (j : ℕ),
      npGet x a = .ok xa ∧ npGet y a = .ok ya ∧
      rs.headD 0 = (j : ℤ) + offset.getD i 0 ∧
      argmax_area xa ya
        (npMean (npSlice x (offset.getD (i + 1) 0) (offset.getD (i + 2) 0)))
        (npMean (npSlice y (offset.getD (i + 1) 0) (offset.getD (i + 2) 0)))
        (npSlice x (offset.getD i 0) (offset.getD (i + 1) 0))
        (npSlice y (offset.getD i 0) (offset.getD (i + 1) 0)) = .ok j ∧
      (∀ t, t < (List.zipWith (triArea xa ya
          (npMean (npSlice x (offset.getD (i + 1) 0) (offset.getD (i + 2) 0)))
          (npMean (npSlice y (offset.getD (i + 1) 0) (offset.getD (i + 2) 0))))
          (npSlice x (offset.getD i 0) (offset.getD (i + 1) 0))
          (npSlice y (offset.getD i 0) (offset.getD (i + 1) 0))).length →
        (List.zipWith (triArea xa ya
          (npMean (npSlice x (offset.getD (i + 1) 0) (offset.getD (i + 2) 0)))
          (npMean (npSlice y (offset.getD (i + 1) 0) (offset.getD (i + 2) 0))))
          (npSlice x (offset.getD i 0) (offset.getD (i + 1) 0))
          (npSlice y (offset.getD i 0) (offset.getD (i + 1) 0))).getD t 0 ≤
        (List.zipWith (triArea xa ya
          (npMean (npSlice x (offset.getD (i + 1) 0) (offset.getD (i + 2) 0)))
          (npMean (npSlice y (offset.getD (i + 1) 0) (offset.getD (i + 2) 0))))
          (npSlice x (offset.getD i 0) (offset.getD (i + 1) 0))
          (npSlice y (offset.getD i 0) (offset.getD (i + 1) 0))).getD j 0) ∧
      (∀ t, t < j →
        (List.zipWith (triArea xa ya
          (npMean (npSlice x (offset.getD (i + 1) 0) (offset.getD (i + 2) 0)))
          (npMean (npSlice y (offset.getD (i + 1) 0) (offset.getD (i + 2) 0))))
          (npSlice x (offset.getD i 0) (offset.getD (i + 1) 0))
          (npSlice y (offset.getD i 0) (offset.getD (i + 1) 0))).getD t 0 <
        (List.zipWith (triArea xa ya
          (npMean (npSlice x (offset.getD (i + 1) 0) (offset.getD (i + 2) 0)))
          (npMean (npSlice y (offset.getD (i + 1) 0) (offset.getD (i + 2) 0))))
          (npSlice x (offset.getD i 0) (offset.getD (i + 1) 0))
          (npSlice y (offset.getD i 0) (offset.getD (i + 1) 0))).getD j 0) := by
  simp only [lttbLoop] at h
  obtain ⟨xa, hxa, h1⟩ := bind_ok_inv _ _ _ h
  obtain ⟨ya, hya, h2⟩ := bind_ok_inv _ _ _ h1
  obtain ⟨o1, ho1, h3⟩ := bind_ok_inv _ _ _ h2
  obtain ⟨o2, ho2, h4⟩ := bind_ok_inv _ _ _ h3
  obtain ⟨o0, ho0, h5⟩ := bind_ok_inv _ _ _ h4
  obtain ⟨j, hj, h6⟩ := bind_ok_inv _ _ _ h5
  obtain ⟨pr, _hpr, h7⟩ := bind_ok_inv _ _ _ h6
  have ho0' := npGet_ok_inv offset (i : ℤ) o0 0 (by omega) ho0
  have ho1' := npGet_ok_inv offset ((i : ℤ) + 1) o1 0 (by omega) ho1
  have ho2' := npGet_ok_inv offset ((i : ℤ) + 2) o2 0 (by omega) ho2
  rw [show ((i : ℤ)).toNat = i by omega] at ho0'
  rw [show ((i : ℤ) + 1).toNat = i + 1 by omega] at ho1'
  rw [show ((i : ℤ) + 2).toNat = i + 2 by omega] at ho2'
  obtain ⟨-, rfl⟩ := ho0'
  obtain ⟨-, rfl⟩ := ho1'
  obtain ⟨-, rfl⟩ := ho2'
  have hrs : rs = ((j : ℤ) + offset.getD i 0) :: pr.1 := by
    have := (Prod.mk.injEq _ _ _ _).mp (Except.ok.inj h7)
    exact this.1.symm
  have hinv := argmax_area_ok_inv _ _ _ _ _ _ _ hj
  refine ⟨xa, ya, j, hxa, hya, ?_, hj, hinv.2.1, hinv.2.2⟩
  rw [hrs]
  simp

theorem lttbLoop_ok_length (x y : List ℚ) (offset : List ℤ) :
    ∀ (k i : ℕ) (a : ℤ) (rs : List ℤ) (afin : ℤ),
      lttbLoop x y offset i k a = .ok (rs, afin) → rs.length = k := by
  intro k
  induction k with
  | zero =>
    intro i a rs afin h
    simp only [lttbLoop] at h
    have := (Prod.mk.injEq _ _ _ _).mp (Except.ok.inj h)
    rw [← this.1]
    rfl
  | succ k ih =>
    intro i a rs afin h
    simp only [lttbLoop] at h
    obtain ⟨xa, hxa, h1⟩ := bind_ok_inv _ _ _ h
    obtain ⟨ya, hya, h2⟩ := bind_ok_inv _ _ _ h1
    obtain ⟨o1, ho1, h3⟩ := bind_ok_inv _ _ _ h2
    obtain ⟨o2, ho2, h4⟩ := bind_ok_inv _ _ _ h3
    obtain ⟨o0, ho0, h5⟩ := bind_ok_inv _ _ _ h4
    obtain ⟨j, hj, h6⟩ := bind_ok_inv _ _ _ h5
    obtain ⟨pr, hpr, h7⟩ := bind_ok_inv _ _ _ h6
    have hrs := ((Prod.mk.injEq _ _ _ _).mp (Except.ok.inj h7)).1
    rw [← hrs]
    simp only [List.length_cons]
    rw [ih (i + 1) ((j : ℤ) + o0) pr.1 pr.2 (by rw [← hpr])]

/-- C3 (amended): `_lttb` performs no validation, but it is atomic in the
sense that an `ok` outcome is always a complete selection: whenever
`lttbRun x y n_out` returns `.ok r` with `n_out ≥ 3`, `r` has length exactly
`n_out` — no partial result can be returned, because any error aborts the
whole computation. -/
theorem lttb_ok_complete (x y : List ℚ) (n_out : ℕ) (h3 : 3 ≤ n_out)
    (r : List ℤ) (h : lttbRun x y n_out = .ok r) : r.length = n_out := by
  simp only [lttbRun] at h
  obtain ⟨pr, hpr, h1⟩ := bind_ok_inv _ _ _ h
  obtain ⟨xa, hxa, h2⟩ := bind_ok_inv _ _ _ h1
  obtain ⟨ya, hya, h3'⟩ := bind_ok_inv _ _ _ h2
  obtain ⟨xl, hxl, h4⟩ := bind_ok_inv _ _ _ h3'
  obtain ⟨yl, hyl, h5⟩ := bind_ok_inv _ _ _ h4
  obtain ⟨om2, hom2, h6⟩ := bind_ok_inv _ _ _ h5
  obtain ⟨om1, hom1, h7⟩ := bind_ok_inv _ _ _ h6
  obtain ⟨j, hj, h8⟩ := bind_ok_inv _ _ _ h7
  have hlen := lttbLoop_ok_length x y (lttbOffsets y.length n_out)
    (n_out - 3) 0 0 pr.1 pr.2 (by rw [← hpr])
  rw [← Except.ok.inj h8]
  simp only [List.cons_append, List.length_cons, List.length_append]
  simp [hlen]
  omega

/-- C3 (counterexample): with `x = y = [0,1,2,3,4]` and `n_out = 6` the
degenerate `block_size = 3/4` produces the offset table `[1,1,2,3,4,4]`
whose first bucket `[1, 1)` is empty; `_lttb` detects nothing up front —
the interior loop evaluates `x[a]`, `y[a]` and the next bucket's means and
then raises the generic numpy `ValueError` from `argmax` of an empty
sequence, rather than signalling a typed invalid-configuration failure
before any indexing. -/
theorem lttb_empty_bucket_cex :
    lttbOffsets 5 6 = [1, 1, 2, 3, 4, 4] ∧
    lttbRun [0, 1, 2, 3, 4] [0, 1, 2, 3, 4] 6 = .error .valueError ∧
    lttbLoop [0, 1, 2, 3, 4] [0, 1, 2, 3, 4] (lttbOffsets 5 6) 0 3 0
      = .error .valueError ∧
    process ⟨[0, 1, 2, 3, 4, 5, 6, 7], .nums [0, 1, 2, 3, 4, 5, 6, 7]⟩ none 5
      "bogus" = .error .keyError := by
  refine ⟨by with_unfolding_all decide, by with_unfolding_all decide,
    by with_unfolding_all decide, by with_unfolding_all decide⟩

/-- C2: `_nth_point` reads `len(s)` where `s` is an unbound name, so every
invocation raises `NameError` — for no input does it return the stride
selection `0, stride, 2·stride, …` promised by the spec. -/
theorem nth_point_raises (x y : List ℚ) (n_out : ℕ) :
    nth_point x y n_out = .error .nameError := rfl

/-- C4: `_process` applies the optional x-range filter first and, if the
(possibly filtered) series length is at most `width`, returns the filtered
data unchanged — whatever the configured algorithm is (even an invalid name),
no selection algorithm runs. -/
theorem process_short_circuit (e : Element) (xr : Option (ℚ × ℚ)) (width : ℕ)
    (alg : String) (h : (applyXRange e xr).len ≤ width) :
    process e xr width alg = .ok (applyXRange e xr) := by
  simp only [process, if_pos h]

/-- C5: the offset table is built from `block_size = (n-2)/(n_out-2)` as a
*real* (rational) division, every entry equals `⌊1 + i·block_size⌋`
(truncation-based stepping), there are `n_out - 1` entries, and at
`n = 100, n_out = 10` this differs from the even-integer-division stepping
the spec warns against. -/
theorem lttb_offsets_real_division :
    (∀ n n_out : ℕ, 3 ≤ n_out → n_out ≤ n →
      (lttbOffsets n n_out).length = n_out - 1 ∧
      ∀ i, i < n_out - 1 →
        (lttbOffsets n n_out).getD i 0 = ⌊1 + (i : ℚ) * blockSize n n_out⌋) ∧
    blockSize 100 10 = 98 / 8 ∧
    lttbOffsets 100 10 = [1, 13, 25, 37, 50, 62, 74, 86, 99] ∧
    (∀ i, i < 9 → (lttbOffsets 100 10).getD i 0 = ⌊1 + (i : ℚ) * (98 / 8 : ℚ)⌋) ∧
    lttbOffsets 100 10 ≠ offsetsIntegerDivision 100 10 := by
  refine ⟨?_, by with_unfolding_all decide, by with_unfolding_all decide,
    by with_unfolding_all decide, by with_unfolding_all decide⟩
  intro n n_out h3 hn
  have hlen := lttbOffsets_length n n_out h3 hn
  exact ⟨hlen, fun i hi => lttbOffsets_getD n n_out i (by omega)⟩

/-- C8: on an element whose y column is boolean, `_process` (when it cannot
short-circuit) hands the algorithm the `int8` encoding `False → 0, True → 1`
of `y` and applies the resulting row selection to the original, uncast
element — so a successful result still carries a boolean y column. -/
theorem process_bool_cast (xs : List ℚ) (bs : List Bool) (width : ℕ)
    (h : width < xs.length) :
    process ⟨xs, .bools bs⟩ none width "lttb"
      = lttbRun xs (bs.map boolToQ) width >>= Element.iloc ⟨xs, .bools bs⟩ ∧
    ∀ e', process ⟨xs, .bools bs⟩ none width "lttb" = .ok e' →
      e'.ys.isBool = true := by
  have hmain : process ⟨xs, .bools bs⟩ none width "lttb"
      = lttbRun xs (bs.map boolToQ) width >>= Element.iloc ⟨xs, .bools bs⟩ := by
    simp only [process, applyXRange]
    rw [if_neg (by simp only [Element.len]; omega)]
    rfl
  refine ⟨hmain, ?_⟩
  intro e' he'
  rw [hmain] at he'
  obtain ⟨samples, _hs, hiloc⟩ := bind_ok_inv _ _ _ he'
  simp only [Element.iloc] at hiloc
  by_cases hc : (samples.all fun i => decide (0 ≤ i) &&
      decide (i < ((Element.len ⟨xs, .bools bs⟩ : ℕ) : ℤ))) = true
  · rw [if_pos hc] at hiloc
    rw [← Except.ok.inj hiloc]
    rfl
  · rw [if_neg hc] at hiloc
    exact Except.noConfusion hiloc

/-! ### Concrete witnesses -/

theorem lttb_selection_contract_witness :
    (3 ≤ 5 ∧ 5 ≤ ([0, 1, 2, 3, 4, 5, 6, 7] : List ℚ).length ∧
      ([0, 1, 2, 3, 4, 5, 6, 7] : List ℚ).length
        = ([0, 1, 2, 3, 4, 5, 6, 7] : List ℚ).length ∧
      List.Chain' (· < ·) (lttbOffsets 8 5)) ∧
    ∃ res : List ℤ,
      lttbRun [0, 1, 2, 3, 4, 5, 6, 7] [0, 1, 2, 3, 4, 5, 6, 7] 5 = .ok res ∧
      res.length = 5 ∧ List.Chain' (· < ·) res ∧
      res.head? = some 0 ∧ res.getLast? = some ((8 : ℤ) - 1) :=
  ⟨⟨by decide, by decide, rfl, by rw [show lttbOffsets 8 5 = [1, 3, 5, 7] from by with_unfolding_all decide]; simp [List.chain'_cons]⟩,
    lttb_selection_contract [0, 1, 2, 3, 4, 5, 6, 7] [0, 1, 2, 3, 4, 5, 6, 7] 5
      (by decide) (by decide) rfl (by rw [show lttbOffsets ([0, 1, 2, 3, 4, 5, 6, 7] : List ℚ).length 5 = [1, 3, 5, 7] from by with_unfolding_all decide]; simp [List.chain'_cons])⟩

theorem lttb_bucket_containment_witness :
    (3 ≤ 5 ∧ 5 ≤ ([0, 1, 2, 3, 4, 5, 6, 7] : List ℚ).length ∧
      List.Chain' (· < ·) (lttbOffsets 8 5)) ∧
    ∃ res : List ℤ,
      lttbRun [0, 1, 2, 3, 4, 5, 6, 7] [0, 1, 2, 3, 4, 5, 6, 7] 5 = .ok res ∧
      ∀ t, t < 5 - 2 →
        offD 8 5 t ≤ res.getD (t + 1) 0 ∧ res.getD (t + 1) 0 < offD 8 5 (t + 1) :=
  ⟨⟨by decide, by decide, by rw [show lttbOffsets 8 5 = [1, 3, 5, 7] from by with_unfolding_all decide]; simp [List.chain'_cons]⟩,
    lttb_bucket_containment [0, 1, 2, 3, 4, 5, 6, 7] [0, 1, 2, 3, 4, 5, 6, 7] 5
      (by decide) (by decide) rfl (by rw [show lttbOffsets ([0, 1, 2, 3, 4, 5, 6, 7] : List ℚ).length 5 = [1, 3, 5, 7] from by with_unfolding_all decide]; simp [List.chain'_cons])⟩

theorem lttb_last_slot_witness :
    (3 ≤ 5 ∧ 5 ≤ ([0, 1, 2, 3, 4, 5, 6, 7] : List ℚ).length ∧
      List.Chain' (· < ·) (lttbOffsets 8 5)) ∧
    ∃ (res : List ℤ) (rs : List ℤ) (j : ℕ),
      lttbRun [0, 1, 2, 3, 4, 5, 6, 7] [0, 1, 2, 3, 4, 5, 6, 7] 5 = .ok res ∧
      lttbLoop [0, 1, 2, 3, 4, 5, 6, 7] [0, 1, 2, 3, 4, 5, 6, 7]
        (lttbOffsets 8 5) 0 (5 - 3) 0 = .ok (rs, rs.getLastD 0) ∧
      argmax_area (([0, 1, 2, 3, 4, 5, 6, 7] : List ℚ).getD (rs.getLastD 0).toNat 0)
        (([0, 1, 2, 3, 4, 5, 6, 7] : List ℚ).getD (rs.getLastD 0).toNat 0)
        (([0, 1, 2, 3, 4, 5, 6, 7] : List ℚ).getD (8 - 1) 0)
        (([0, 1, 2, 3, 4, 5, 6, 7] : List ℚ).getD (8 - 1) 0)
        (npSlice [0, 1, 2, 3, 4, 5, 6, 7] (offD 8 5 (5 - 3)) (offD 8 5 (5 - 2)))
        (npSlice [0, 1, 2, 3, 4, 5, 6, 7] (offD 8 5 (5 - 3)) (offD 8 5 (5 - 2)))
        = .ok j ∧
      res.getD (5 - 2) 0 = (j : ℤ) + offD 8 5 (5 - 3) ∧
      offD 8 5 (5 - 2) = (8 : ℤ) - 1 :=
  ⟨⟨by decide, by decide, by rw [show lttbOffsets 8 5 = [1, 3, 5, 7] from by with_unfolding_all decide]; simp [List.chain'_cons]⟩,
    lttb_last_slot [0, 1, 2, 3, 4, 5, 6, 7] [0, 1, 2, 3, 4, 5, 6, 7] 5
      (by decide) (by decide) rfl (by rw [show lttbOffsets ([0, 1, 2, 3, 4, 5, 6, 7] : List ℚ).length 5 = [1, 3, 5, 7] from by with_unfolding_all decide]; simp [List.chain'_cons])⟩

theorem lttb_nout3_witness :
    (3 ≤ ([0, 1, 2, 3, 4] : List ℚ).length) ∧
    (lttbOffsets 5 3 = [1, (5 : ℤ) - 1] ∧
      lttbLoop [0, 1, 2, 3, 4] [0, 1, 2, 3, 4] (lttbOffsets 5 3) 0 0 0
        = .ok ([], 0) ∧
      ∃ j : ℕ,
        lttbRun [0, 1, 2, 3, 4] [0, 1, 2, 3, 4] 3 = .ok [0, (j : ℤ) + 1, (5 : ℤ) - 1] ∧
        j < 5 - 2 ∧
        (∀ t, t < 5 - 2 →
          triArea (([0, 1, 2, 3, 4] : List ℚ).getD 0 0)
            (([0, 1, 2, 3, 4] : List ℚ).getD 0 0)
            (([0, 1, 2, 3, 4] : List ℚ).getD (5 - 1) 0)
            (([0, 1, 2, 3, 4] : List ℚ).getD (5 - 1) 0)
            (([0, 1, 2, 3, 4] : List ℚ).getD (1 + t) 0)
            (([0, 1, 2, 3, 4] : List ℚ).getD (1 + t) 0) ≤
          triArea (([0, 1, 2, 3, 4] : List ℚ).getD 0 0)
            (([0, 1, 2, 3, 4] : List ℚ).getD 0 0)
            (([0, 1, 2, 3, 4] : List ℚ).getD (5 - 1) 0)
            (([0, 1, 2, 3, 4] : List ℚ).getD (5 - 1) 0)
            (([0, 1, 2, 3, 4] : List ℚ).getD (1 + j) 0)
            (([0, 1, 2, 3, 4] : List ℚ).getD (1 + j) 0)) ∧
        (∀ t, t < j →
          triArea (([0, 1, 2, 3, 4] : List ℚ).getD 0 0)
            (([0, 1, 2, 3, 4] : List ℚ).getD 0 0)
            (([0, 1, 2, 3, 4] : List ℚ).getD (5 - 1) 0)
            (([0, 1, 2, 3, 4] : List ℚ).getD (5 - 1) 0)
            (([0, 1, 2, 3, 4] : List ℚ).getD (1 + t) 0)
            (([0, 1, 2, 3, 4] : List ℚ).getD (1 + t) 0) <
          triArea (([0, 1, 2, 3, 4] : List ℚ).getD 0 0)
            (([0, 1, 2, 3, 4] : List ℚ).getD 0 0)
            (([0, 1, 2, 3, 4] : List ℚ).getD (5 - 1) 0)
            (([0, 1, 2, 3, 4] : List ℚ).getD (5 - 1) 0)
            (([0, 1, 2, 3, 4] : List ℚ).getD (1 + j) 0)
            (([0, 1, 2, 3, 4] : List ℚ).getD (1 + j) 0))) :=
  ⟨by decide, lttb_nout3 [0, 1, 2, 3, 4] [0, 1, 2, 3, 4] (by decide) rfl⟩

theorem lttb_step_witness :
    (lttbLoop [0, 1, 2, 3, 4, 5, 6, 7] [0, 1, 2, 3, 4, 5, 6, 7] [1, 3, 5, 7]
      0 2 0 = .ok ([1, 3], 3)) ∧
    ∃ (xa ya : ℚ) (j : ℕ),
      npGet ([0, 1, 2, 3, 4, 5, 6, 7] : List ℚ) 0 = .ok xa ∧
      npGet ([0, 1, 2, 3, 4, 5, 6, 7] : List ℚ) 0 = .ok ya ∧
      ([1, 3] : List ℤ).headD 0 = (j : ℤ) + ([1, 3, 5, 7] : List ℤ).getD 0 0 ∧
      argmax_area xa ya
        (npMean (npSlice [0, 1, 2, 3, 4, 5, 6, 7]
          (([1, 3, 5, 7] : List ℤ).getD (0 + 1) 0) (([1, 3, 5, 7] : List ℤ).getD (0 + 2) 0)))
        (npMean (npSlice [0, 1, 2, 3, 4, 5, 6, 7]
          (([1, 3, 5, 7] : List ℤ).getD (0 + 1) 0) (([1, 3, 5, 7] : List ℤ).getD (0 + 2) 0)))
        (npSlice [0, 1, 2, 3, 4, 5, 6, 7]
          (([1, 3, 5, 7] : List ℤ).getD 0 0) (([1, 3, 5, 7] : List ℤ).getD (0 + 1) 0))
        (npSlice [0, 1, 2, 3, 4, 5, 6, 7]
          (([1, 3, 5, 7] : List ℤ).getD 0 0) (([1, 3, 5, 7] : List ℤ).getD (0 + 1) 0))
        = .ok j ∧
      (∀ t, t < (List.zipWith (triArea xa ya
          (npMean (npSlice [0, 1, 2, 3, 4, 5, 6, 7]
            (([1, 3, 5, 7] : List ℤ).getD (0 + 1) 0) (([1, 3, 5, 7] : List ℤ).getD (0 + 2) 0)))
          (npMean (npSlice [0, 1, 2, 3, 4, 5, 6, 7]
            (([1, 3, 5, 7] : List ℤ).getD (0 + 1) 0) (([1, 3, 5, 7] : List ℤ).getD (0 + 2) 0))))
          (npSlice [0, 1, 2, 3, 4, 5, 6, 7]
            (([1, 3, 5, 7] : List ℤ).getD 0 0) (([1, 3, 5, 7] : List ℤ).getD (0 + 1) 0))
          (npSlice [0, 1, 2, 3, 4, 5, 6, 7]
            (([1, 3, 5, 7] : List ℤ).getD 0 0) (([1, 3, 5, 7] : List ℤ).getD (0 + 1) 0))).length →
        (List.zipWith (triArea xa ya
          (npMean (npSlice [0, 1, 2, 3, 4, 5, 6, 7]
            (([1, 3, 5, 7] : List ℤ).getD (0 + 1) 0) (([1, 3, 5, 7] : List ℤ).getD (0 + 2) 0)))
          (npMean (npSlice [0, 1, 2, 3, 4, 5, 6, 7]
            (([1, 3, 5, 7] : List ℤ).getD (0 + 1) 0) (([1, 3, 5, 7] : List ℤ).getD (0 + 2) 0))))
          (npSlice [0, 1, 2, 3, 4, 5, 6, 7]
            (([1, 3, 5, 7] : List ℤ).getD 0 0) (([1, 3, 5, 7] : List ℤ).getD (0 + 1) 0))
          (npSlice [0, 1, 2, 3, 4, 5, 6, 7]
            (([1, 3, 5, 7] : List ℤ).getD 0 0) (([1, 3, 5, 7] : List ℤ).getD (0 + 1) 0))).getD t 0 ≤
        (List.zipWith (triArea xa ya
          (npMean (npSlice [0, 1, 2, 3, 4, 5, 6, 7]
            (([1, 3, 5, 7] : List ℤ).getD (0 + 1) 0) (([1, 3, 5, 7] : List ℤ).getD (0 + 2) 0)))
          (npMean (npSlice [0, 1, 2, 3, 4, 5, 6, 7]
            (([1, 3, 5, 7] : List ℤ).getD (0 + 1) 0) (([1, 3, 5, 7] : List ℤ).getD (0 + 2) 0))))
          (npSlice [0, 1, 2, 3, 4, 5, 6, 7]
            (([1, 3, 5, 7] : List ℤ).getD 0 0) (([1, 3, 5, 7] : List ℤ).getD (0 + 1) 0))
          (npSlice [0, 1, 2, 3, 4, 5, 6, 7]
            (([1, 3, 5, 7] : List ℤ).getD 0 0) (([1, 3, 5, 7] : List ℤ).getD (0 + 1) 0))).getD j 0) ∧
      (∀ t, t < j →
        (List.zipWith (triArea xa ya
          (npMean (npSlice [0, 1, 2, 3, 4, 5, 6, 7]
            (([1, 3, 5, 7] : List ℤ).getD (0 + 1) 0) (([1, 3, 5, 7] : List ℤ).getD (0 + 2) 0)))
          (npMean (npSlice [0, 1, 2, 3, 4, 5, 6, 7]
            (([1, 3, 5, 7] : List ℤ).getD (0 + 1) 0) (([1, 3, 5, 7] : List ℤ).getD (0 + 2) 0))))
          (npSlice [0, 1, 2, 3, 4, 5, 6, 7]
            (([1, 3, 5, 7] : List ℤ).getD 0 0) (([1, 3, 5, 7] : List ℤ).getD (0 + 1) 0))
          (npSlice [0, 1, 2, 3, 4, 5, 6, 7]
            (([1, 3, 5, 7] : List ℤ).getD 0 0) (([1, 3, 5, 7] : List ℤ).getD (0 + 1) 0))).getD t 0 <
        (List.zipWith (triArea xa ya
          (npMean (npSlice [0, 1, 2, 3, 4, 5, 6, 7]
            (([1, 3, 5, 7] : List ℤ).getD (0 + 1) 0) (([1, 3, 5, 7] : List ℤ).getD (0 + 2) 0)))
          (npMean (npSlice [0, 1, 2, 3, 4, 5, 6, 7]
            (([1, 3, 5, 7] : List ℤ).getD (0 + 1) 0) (([1, 3, 5, 7] : List ℤ).getD (0 + 2) 0))))
          (npSlice [0, 1, 2, 3, 4, 5, 6, 7]
            (([1, 3, 5, 7] : List ℤ).getD 0 0) (([1, 3, 5, 7] : List ℤ).getD (0 + 1) 0))
          (npSlice [0, 1, 2, 3, 4, 5, 6, 7]
            (([1, 3, 5, 7] : List ℤ).getD 0 0) (([1, 3, 5, 7] : List ℤ).getD (0 + 1) 0))).getD j 0) :=
  ⟨by with_unfolding_all decide,
    lttb_step [0, 1, 2, 3, 4, 5, 6, 7] [0, 1, 2, 3, 4, 5, 6, 7] [1, 3, 5, 7]
      0 1 0 [1, 3] 3 (by with_unfolding_all decide)⟩

theorem lttb_ok_complete_witness :
    (3 ≤ 5 ∧
      lttbRun [0, 1, 2, 3, 4, 5, 6, 7] [0, 1, 2, 3, 4, 5, 6, 7] 5
        = .ok [0, 1, 3, 5, 7]) ∧
    ([0, 1, 3, 5, 7] : List ℤ).length = 5 :=
  ⟨⟨by decide, by with_unfolding_all decide⟩,
    lttb_ok_complete [0, 1, 2, 3, 4, 5, 6, 7] [0, 1, 2, 3, 4, 5, 6, 7] 5
      (by decide) [0, 1, 3, 5, 7] (by with_unfolding_all decide)⟩

theorem process_short_circuit_witness :
    ((applyXRange ⟨[0, 1, 2, 3, 4, 5, 6, 7, 8, 9, 10, 11],
        .nums [0, 1, 2, 3, 4, 5, 6, 7, 8, 9, 10, 11]⟩ (some (0, 5))).len ≤ 10 ∧
      (applyXRange ⟨[0, 1, 2, 3, 4], .nums [9, 8, 7, 6, 5]⟩ none).len ≤ 10) ∧
    (process ⟨[0, 1, 2, 3, 4, 5, 6, 7, 8, 9, 10, 11],
        .nums [0, 1, 2, 3, 4, 5, 6, 7, 8, 9, 10, 11]⟩ (some (0, 5)) 10 "bogus"
      = .ok (applyXRange ⟨[0, 1, 2, 3, 4, 5, 6, 7, 8, 9, 10, 11],
        .nums [0, 1, 2, 3, 4, 5, 6, 7, 8, 9, 10, 11]⟩ (some (0, 5))) ∧
      process ⟨[0, 1, 2, 3, 4], .nums [9, 8, 7, 6, 5]⟩ none 10 "lttb"
        = .ok ⟨[0, 1, 2, 3, 4], .nums [9, 8, 7, 6, 5]⟩) :=
  ⟨⟨by with_unfolding_all decide, by decide⟩,
    process_short_circuit _ (some (0, 5)) 10 "bogus" (by with_unfolding_all decide),
    process_short_circuit _ none 10 "lttb" (by decide)⟩

theorem lttb_offsets_real_division_witness :
    (3 ≤ 10 ∧ 10 ≤ 100) ∧
    ((lttbOffsets 100 10).length = 10 - 1 ∧
      ∀ i, i < 10 - 1 →
        (lttbOffsets 100 10).getD i 0 = ⌊1 + (i : ℚ) * blockSize 100 10⌋) :=
  ⟨⟨by decide, by decide⟩,
    lttb_offsets_real_division.1 100 10 (by decide) (by decide)⟩

theorem process_bool_cast_witness :
    (3 < ([0, 1, 2, 3, 4] : List ℚ).length) ∧
    (process ⟨[0, 1, 2, 3, 4], .bools [false, true, false, true, true]⟩ none 3 "lttb"
      = lttbRun [0, 1, 2, 3, 4] ([false, true, false, true, true].map boolToQ) 3 >>=
          Element.iloc ⟨[0, 1, 2, 3, 4], .bools [false, true, false, true, true]⟩ ∧
      ∀ e', process ⟨[0, 1, 2, 3, 4],
          .bools [false, true, false, true, true]⟩ none 3 "lttb" = .ok e' →
        e'.ys.isBool = true) :=
  ⟨by decide,
    process_bool_cast [0, 1, 2, 3, 4] [false, true, false, true, true] 3 (by decide)⟩
